/-
Verification of the event-driven trading simulation core of the
`onesecondtrader` repository, as a shallow embedding in Lean 4.

Python floats are embedded as rationals; the IEEE NaN sentinel used by the
indicator history is embedded as `none` in `Option ℚ` (`EFloat` below).
Python dicts keyed by strings or order ids are embedded as insertion-ordered
association lists with the corresponding lookup/insert/remove operations.
-/
import Mathlib

namespace OST

/-- Bar aggregation periods (`models.BarPeriod`). -/
inductive BarPeriod
  | second
  | minute
  | hour
  | day
  deriving DecidableEq, Repr

/-- Order execution constraints (`models.OrderType`). -/
inductive OrderType
  | market
  | limit
  | stop
  | stopLimit
  deriving DecidableEq, Repr

/-- Trade directions (`models.TradeSide`). -/
inductive TradeSide
  | buy
  | sell
  deriving DecidableEq, Repr

/-- Market-data bar event (`events.market.BarReceived`).  Prices are Python
floats, embedded as rationals; `volume` is optional. -/
structure BarReceived where
  tsEventNs : Int
  symbol : String
  barPeriod : BarPeriod
  open_ : ℚ
  high : ℚ
  low : ℚ
  close : ℚ
  volume : Option Int
  deriving DecidableEq, Repr

/-- Indicator values are Python floats that may be IEEE NaN; `none` embeds
NaN (`numpy.nan`), `some q` embeds an ordinary float value. -/
abbrev EFloat := Option ℚ

/-- The NaN sentinel returned by indicator reads when no value is available. -/
def nan : EFloat := none

/-- Lookup in an insertion-ordered association list; embeds Python
`dict.get(key)` for dicts with unique keys. -/
def alistLookup {κ α : Type} [DecidableEq κ] (l : List (κ × α)) (k : κ) :
    Option α :=
  (l.find? (fun p => p.1 = k)).map (fun p => p.2)

/-- Update-or-append in an insertion-ordered association list; embeds Python
`d[key] = value`, which keeps the key's insertion position when present and
appends the key otherwise. -/
def alistInsert {κ α : Type} [DecidableEq κ] (l : List (κ × α)) (k : κ) (v : α) :
    List (κ × α) :=
  if (l.find? (fun p => p.1 = k)).isSome then
    l.map (fun p => if p.1 = k then (k, v) else p)
  else
    l ++ [(k, v)]

/-- Removal from an insertion-ordered association list; embeds Python
`d.pop(key, None)`, which drops the key's entry and keeps the insertion
order of the remaining entries. -/
def alistRemove {κ α : Type} [DecidableEq κ] (l : List (κ × α)) (k : κ) :
    List (κ × α) :=
  l.filter (fun p => p.1 ≠ k)

/-- Inserting a binding and looking up its key yields the inserted value. -/
theorem alistLookup_alistInsert_self {κ α : Type} [DecidableEq κ]
    (l : List (κ × α)) (k : κ) (v : α) :
    alistLookup (alistInsert l k v) k = some v := by
  induction l with
  | nil => simp [alistInsert, alistLookup]
  | cons p rest ih =>
    by_cases hp : p.1 = k
    · simp [alistInsert, alistLookup, List.find?, hp]
    · have hstep : (p :: rest).find? (fun q => q.1 = k)
          = rest.find? (fun q => q.1 = k) := by
        rw [List.find?_cons_of_neg]
        simp [hp]
      by_cases hr : ((rest.find? (fun q => q.1 = k)).isSome = true)
      · have hcons : alistInsert (p :: rest) k v
            = p :: alistInsert rest k v := by
          unfold alistInsert
          rw [hstep, if_pos hr, if_pos hr]
          simp [hp]
        rw [hcons]
        simp only [alistLookup] at ih ⊢
        rw [List.find?_cons_of_neg _ (by simp [hp])]
        exact ih
      · have hcons : alistInsert (p :: rest) k v
            = p :: alistInsert rest k v := by
          unfold alistInsert
          rw [hstep, if_neg hr, if_neg hr]
          rfl
        rw [hcons]
        simp only [alistLookup] at ih ⊢
        rw [List.find?_cons_of_neg _ (by simp [hp])]
        exact ih

/-- Bounded FIFO append; embeds `collections.deque(maxlen=m).append(v)`:
the new value is appended and the oldest values are evicted from the left
until at most `m` values remain. -/
def pushBounded (m : Nat) (hist : List EFloat) (v : EFloat) : List EFloat :=
  let h := hist ++ [v]
  h.drop (h.length - m)

/-- Effective position selected by Python sequence indexing: a negative
index addresses position `len + i`. -/
def pyPos (len : Nat) (i : Int) : Int := if i < 0 then (len : Int) + i else i

/-- Python sequence indexing over a history buffer, with `IndexError` mapped
to NaN: any index whose effective position is outside the valid range yields
`nan`.  Embeds `history[index]` wrapped in `try/except IndexError` from
`IndicatorBase.__getitem__`. -/
def pyIndex (l : List EFloat) (i : Int) : EFloat :=
  if h : 0 ≤ pyPos l.length i ∧ pyPos l.length i < l.length then
    l.get ⟨(pyPos l.length i).toNat, by omega⟩
  else nan

/-- In-range nonnegative indices read the element at that position. -/
theorem pyIndex_of_nonneg (l : List EFloat) (i : Int) (h0 : 0 ≤ i)
    (hlt : i < (l.length : Int)) : l[i.toNat]? = some (pyIndex l i) := by
  unfold pyIndex pyPos
  split_ifs with h1 h2 h2
  · omega
  · omega
  · rw [List.getElem?_eq_getElem (by omega)]
    simp only [List.get_eq_getElem]
  · omega

/-- Indices at or beyond the length are out of range and read NaN. -/
theorem pyIndex_of_ge (l : List EFloat) (i : Int) (hge : (l.length : Int) ≤ i) :
    pyIndex l i = nan := by
  unfold pyIndex pyPos
  split_ifs with h1 h2 h2
  · omega
  · rfl
  · omega
  · rfl

/-- In-range negative indices read the element at position `len + i`. -/
theorem pyIndex_of_neg (l : List EFloat) (i : Int) (hneg : i < 0)
    (hge : -(l.length : Int) ≤ i) :
    l[((l.length : Int) + i).toNat]? = some (pyIndex l i) := by
  unfold pyIndex pyPos
  split_ifs with h1
  · rw [List.getElem?_eq_getElem (by omega)]
    simp only [List.get_eq_getElem]
  · omega

/-- Negative indices below `-len` are out of range and read NaN. -/
theorem pyIndex_of_lt_neg (l : List EFloat) (i : Int)
    (hlt : i < -(l.length : Int)) : pyIndex l i = nan := by
  unfold pyIndex pyPos
  split_ifs with h1 h2 h2
  · omega
  · rfl
  · omega
  · rfl

/-- Indicator with per-symbol bounded history (`indicators.base.IndicatorBase`
together with the runtime bookkeeping a strategy needs).  A deterministic
`_compute_indicator` with arbitrary internal state is embedded as a function
of the full sequence of bars previously passed to `update` (`seen`) and the
incoming bar. -/
structure Indicator where
  name : String
  plotAt : Nat
  maxHistory : Nat
  compute : List BarReceived → BarReceived → EFloat
  seen : List BarReceived
  historyData : List (String × List EFloat)

/-- One `IndicatorBase.update` call: compute the value outside the lock, then
append it to the per-symbol bounded buffer (creating the buffer on first
use). -/
def Indicator.update (ind : Indicator) (bar : BarReceived) : Indicator :=
  let v := ind.compute ind.seen bar
  { ind with
    seen := ind.seen ++ [bar]
    historyData :=
      alistInsert ind.historyData bar.symbol
        (pushBounded ind.maxHistory
          ((alistLookup ind.historyData bar.symbol).getD []) v) }

/-- `IndicatorBase.__getitem__`: read by `(symbol, index)`, returning NaN for
an unknown symbol and for an out-of-range index. -/
def Indicator.getItem (ind : Indicator) (sym : String) (i : Int) : EFloat :=
  match alistLookup ind.historyData sym with
  | none => nan
  | some history => pyIndex history i

/-- `IndicatorBase.latest`: the most recent value, defined as `self[symbol, -1]`. -/
def Indicator.latest (ind : Indicator) (sym : String) : EFloat :=
  ind.getItem sym (-1)

/-- C8: the indicator index operation is a total function (it never raises):
it returns NaN when the symbol has no history buffer or when the index is out
of range, and otherwise returns the element selected by Python sequence
semantics (a negative index `i` addresses position `len + i`); `latest` is
exactly the read at index `-1`. -/
theorem indicator_getitem_total_python_semantics
    (ind : Indicator) (sym : String) (i : Int) :
    (Indicator.latest ind sym = Indicator.getItem ind sym (-1))
    ∧ (alistLookup ind.historyData sym = none →
        Indicator.getItem ind sym i = nan)
    ∧ (∀ hist, alistLookup ind.historyData sym = some hist →
        (0 ≤ i → i < (hist.length : Int) →
          hist[i.toNat]? = some (Indicator.getItem ind sym i))
        ∧ ((hist.length : Int) ≤ i → Indicator.getItem ind sym i = nan)
        ∧ (i < 0 → -(hist.length : Int) ≤ i →
          hist[((hist.length : Int) + i).toNat]? =
            some (Indicator.getItem ind sym i))
        ∧ (i < -(hist.length : Int) → Indicator.getItem ind sym i = nan)) := by
  refine ⟨rfl, ?_, ?_⟩
  · intro h
    simp [Indicator.getItem, h]
  · intro hist hh
    refine ⟨?_, ?_, ?_, ?_⟩
    · intro h0 hlt
      simp only [Indicator.getItem, hh]
      exact pyIndex_of_nonneg hist i h0 hlt
    · intro hge
      simp only [Indicator.getItem, hh]
      exact pyIndex_of_ge hist i hge
    · intro hneg hge
      simp only [Indicator.getItem, hh]
      exact pyIndex_of_neg hist i hneg hge
    · intro hlt
      simp only [Indicator.getItem, hh]
      exact pyIndex_of_lt_neg hist i hlt

/-- Concrete indicator used to witness C8: history `[3, 7]` for symbol `"A"`. -/
def sampleIndicator : Indicator :=
  { name := "SAMPLE"
    plotAt := 1
    maxHistory := 5
    compute := fun _ _ => nan
    seen := []
    historyData := [("A", [some 3, some 7])] }

/-- Witness for C8 at a concrete indicator: the in-range hypotheses hold and
the reads evaluate to the stored elements resp. NaN. -/
theorem indicator_getitem_total_python_semantics_witness :
    (alistLookup sampleIndicator.historyData "A" = some [some 3, some 7])
    ∧ Indicator.latest sampleIndicator "A" = some 7
    ∧ Indicator.getItem sampleIndicator "A" 0 = some 3
    ∧ Indicator.getItem sampleIndicator "A" 2 = nan
    ∧ Indicator.getItem sampleIndicator "A" (-3) = nan
    ∧ Indicator.getItem sampleIndicator "B" 0 = nan := by
  have h0 := indicator_getitem_total_python_semantics sampleIndicator "A" 0
  have h2 := indicator_getitem_total_python_semantics sampleIndicator "A" 2
  have hm3 := indicator_getitem_total_python_semantics sampleIndicator "A" (-3)
  have hB := indicator_getitem_total_python_semantics sampleIndicator "B" 0
  have hlk : alistLookup sampleIndicator.historyData "A" = some [some 3, some 7] := by
    decide
  refine ⟨hlk, ?_, ?_, ?_, ?_, ?_⟩
  · decide
  · have := (h0.2.2 [some 3, some 7] hlk).1 (by decide) (by decide)
    simpa using this.symm
  · exact (h2.2.2 [some 3, some 7] hlk).2.1 (by decide)
  · exact (hm3.2.2 [some 3, some 7] hlk).2.2.2 (by decide)
  · exact hB.2.1 (by decide)

/-- Execution report for an order (`events.orders.FillEvent`).  The opaque
128-bit identifiers are embedded as naturals. -/
structure FillEvent where
  tsEventNs : Int
  fillId : Nat
  associatedOrderId : Nat
  symbol : String
  side : TradeSide
  quantityFilled : ℚ
  fillPrice : ℚ
  commission : ℚ
  deriving DecidableEq, Repr

/-- Per-order bookkeeping record of a strategy (`strategies.base.OrderRecord`). -/
structure OrderRecord where
  orderId : Nat
  symbol : String
  orderType : OrderType
  side : TradeSide
  quantity : ℚ
  limitPrice : Option ℚ := none
  stopPrice : Option ℚ := none
  signal : Option String := none
  filledQuantity : ℚ := 0
  deriving DecidableEq, Repr

/-- Per-fill bookkeeping record of a strategy (`strategies.base.FillRecord`). -/
structure FillRecord where
  fillId : Nat
  orderId : Nat
  symbol : String
  side : TradeSide
  quantity : ℚ
  price : ℚ
  commission : ℚ
  tsEvent : Int
  deriving DecidableEq, Repr

/-- Mutable state of a strategy instance (`strategies.base.StrategyBase`):
configuration, registered indicators, per-symbol fill/position/average-price
accounting, and the four order buckets. -/
structure StrategyState where
  symbols : List String
  barPeriod : BarPeriod
  indicators : List Indicator
  currentSymbol : String
  currentTs : Int
  fills : List (String × List FillRecord)
  positions : List (String × ℚ)
  avgPrices : List (String × ℚ)
  pendingOrders : List (Nat × OrderRecord)
  submittedOrders : List (Nat × OrderRecord)
  submittedModifications : List (Nat × OrderRecord)
  submittedCancellations : List (Nat × OrderRecord)

/-- Signed fill quantity: positive for BUY, negative for SELL
(`StrategyBase._update_position`, the `match event.side` block). -/
def signedQuantity (e : FillEvent) : ℚ :=
  match e.side with
  | .buy => e.quantityFilled
  | .sell => -e.quantityFilled

/-- Position and average-entry-price update on a fill
(`StrategyBase._update_position`). -/
def updatePosition (s : StrategyState) (e : FillEvent) : StrategyState :=
  let signedQty := signedQuantity e
  let oldPos := (alistLookup s.positions e.symbol).getD 0
  let oldAvg := (alistLookup s.avgPrices e.symbol).getD 0
  let newPos := oldPos + signedQty
  let newAvg : ℚ :=
    if newPos = 0 then 0
    else if oldPos = 0 then e.fillPrice
    else if (0 < oldPos ∧ 0 < signedQty) ∨ (oldPos < 0 ∧ signedQty < 0) then
      (oldAvg * |oldPos| + e.fillPrice * |signedQty|) / |newPos|
    else if |newPos| ≤ |oldPos| then oldAvg
    else e.fillPrice
  { s with
    positions := alistInsert s.positions e.symbol newPos
    avgPrices := alistInsert s.avgPrices e.symbol newAvg }

/-- The `FillRecord` appended by `StrategyBase._on_order_filled` for a fill. -/
def fillRecordOfEvent (e : FillEvent) : FillRecord :=
  { fillId := e.fillId
    orderId := e.associatedOrderId
    symbol := e.symbol
    side := e.side
    quantity := e.quantityFilled
    price := e.fillPrice
    commission := e.commission
    tsEvent := e.tsEventNs }

/-- Fill handling (`StrategyBase._on_order_filled`): update the pending
order's filled quantity (removing it when fully filled) when the order is
known, then unconditionally append a `FillRecord` and update the position. -/
def onOrderFilled (s : StrategyState) (e : FillEvent) : StrategyState :=
  let s1 :=
    match alistLookup s.pendingOrders e.associatedOrderId with
    | some order =>
      let updated :=
        { order with filledQuantity := order.filledQuantity + e.quantityFilled }
      if order.quantity ≤ updated.filledQuantity then
        { s with pendingOrders := alistRemove s.pendingOrders e.associatedOrderId }
      else
        { s with pendingOrders :=
            alistInsert s.pendingOrders e.associatedOrderId updated }
    | none => s
  let s2 := { s1 with
    fills := alistInsert s1.fills e.symbol
      ((alistLookup s1.fills e.symbol).getD [] ++ [fillRecordOfEvent e]) }
  updatePosition s2 e

/-- C2 (counterexample): with an open long position of 10 at average price
100, a SELL fill of 4 at price 200 leaves old and new position (10 and 6)
both nonzero with the same sign, yet the code keeps the average at 100 while
the claimed weighted formula yields 300. -/
def reduceState : StrategyState :=
  { symbols := ["A"]
    barPeriod := .minute
    indicators := []
    currentSymbol := "A"
    currentTs := 0
    fills := []
    positions := [("A", 10)]
    avgPrices := [("A", 100)]
    pendingOrders := []
    submittedOrders := []
    submittedModifications := []
    submittedCancellations := [] }

/-- SELL fill of 4 at price 200 used for the C2 counterexample. -/
def reduceFill : FillEvent :=
  { tsEventNs := 0
    fillId := 0
    associatedOrderId := 0
    symbol := "A"
    side := .sell
    quantityFilled := 4
    fillPrice := 200
    commission := 0 }

/-- C2 is false as stated: old position 10 and new position 6 are both
nonzero with the same sign, but the new average price is 100 (unchanged), not
the claimed `(100·10 + 200·4) / 6 = 300`. -/
theorem position_avg_same_sign_counterexample :
    ((alistLookup reduceState.positions "A").getD 0 = 10
      ∧ (alistLookup reduceState.positions "A").getD 0 + signedQuantity reduceFill = 6)
    ∧ alistLookup (updatePosition reduceState reduceFill).avgPrices "A" = some 100
    ∧ ((alistLookup reduceState.avgPrices "A").getD 0
          * |(alistLookup reduceState.positions "A").getD 0|
        + reduceFill.fillPrice * |signedQuantity reduceFill|)
        / |(alistLookup reduceState.positions "A").getD 0 + signedQuantity reduceFill|
      = 300
    ∧ (100 : ℚ) ≠ 300 := by
  refine ⟨⟨?_, ?_⟩, ?_, ?_, by norm_num⟩ <;>
    norm_num [reduceState, reduceFill, updatePosition, signedQuantity,
      alistLookup, alistInsert, List.find?]

/-- C2 (amended): when the old position is nonzero and the signed fill
quantity has the same sign as the old position — the fill adds to the
position, which is exactly when old and new position are nonzero with the
same sign and `|new| > |old|` — the new average price is
`(old_avg·|old| + fill_price·|signed|) / |new|`. -/
theorem position_avg_adding (s : StrategyState) (e : FillEvent)
    (hadd : (0 < (alistLookup s.positions e.symbol).getD 0 ∧ 0 < signedQuantity e)
      ∨ ((alistLookup s.positions e.symbol).getD 0 < 0 ∧ signedQuantity e < 0)) :
    alistLookup (updatePosition s e).avgPrices e.symbol
      = some (((alistLookup s.avgPrices e.symbol).getD 0
            * |(alistLookup s.positions e.symbol).getD 0|
          + e.fillPrice * |signedQuantity e|)
          / |(alistLookup s.positions e.symbol).getD 0 + signedQuantity e|) := by
  have hnz : (alistLookup s.positions e.symbol).getD 0 + signedQuantity e ≠ 0 := by
    rcases hadd with ⟨h1, h2⟩ | ⟨h1, h2⟩ <;> nlinarith
  have hold : (alistLookup s.positions e.symbol).getD 0 ≠ 0 := by
    rcases hadd with ⟨h1, h2⟩ | ⟨h1, h2⟩ <;> nlinarith
  simp only [updatePosition, if_neg hnz, if_neg hold, if_pos hadd]
  exact alistLookup_alistInsert_self ..

/-- State with an open long position of 10 at average price 100 used to
witness the amended C2. -/
def addState : StrategyState :=
  { reduceState with positions := [("A", 10)], avgPrices := [("A", 100)] }

/-- BUY fill of 5 at price 200 used to witness the amended C2. -/
def addFill : FillEvent :=
  { reduceFill with side := .buy, quantityFilled := 5, fillPrice := 200 }

/-- Witness for the amended C2 at a concrete adding fill: long 10 at average
100, BUY 5 at 200, giving average `(100·10 + 200·5) / 15 = 400/3`. -/
theorem position_avg_adding_witness :
    ((0 < (alistLookup addState.positions "A").getD 0 ∧ 0 < signedQuantity addFill)
      ∨ ((alistLookup addState.positions "A").getD 0 < 0 ∧ signedQuantity addFill < 0))
    ∧ alistLookup (updatePosition addState addFill).avgPrices "A"
      = some (((alistLookup addState.avgPrices "A").getD 0
            * |(alistLookup addState.positions "A").getD 0|
          + addFill.fillPrice * |signedQuantity addFill|)
          / |(alistLookup addState.positions "A").getD 0 + signedQuantity addFill|) := by
  have h : addFill.symbol = "A" := rfl
  have hpos : (0 : ℚ) < (alistLookup addState.positions "A").getD 0 := by
    norm_num [addState, reduceState, alistLookup, List.find?]
  have hqty : (0 : ℚ) < signedQuantity addFill := by
    norm_num [signedQuantity, addFill, reduceFill]
  refine ⟨Or.inl ⟨hpos, hqty⟩, ?_⟩
  have := position_avg_adding addState addFill (by rw [h]; exact Or.inl ⟨hpos, hqty⟩)
  rw [h] at this
  exact this

/-- C9: a fill whose order id is not in the pending-acknowledged bucket still
appends a `FillRecord` for the fill's symbol and applies the position and
average-price update; the pending-order bucket is left untouched. -/
theorem fill_unknown_order_still_updates (s : StrategyState) (e : FillEvent)
    (h : alistLookup s.pendingOrders e.associatedOrderId = none) :
    (onOrderFilled s e).pendingOrders = s.pendingOrders
    ∧ alistLookup (onOrderFilled s e).fills e.symbol
        = some ((alistLookup s.fills e.symbol).getD [] ++ [fillRecordOfEvent e])
    ∧ (onOrderFilled s e).positions = (updatePosition s e).positions
    ∧ (onOrderFilled s e).avgPrices = (updatePosition s e).avgPrices := by
  simp only [onOrderFilled, h]
  refine ⟨rfl, ?_, rfl, rfl⟩
  simp only [updatePosition]
  exact alistLookup_alistInsert_self ..

/-- Fill for an order id `42` that is absent from every bucket, used to
witness C9. -/
def unknownFill : FillEvent :=
  { reduceFill with
    associatedOrderId := 42
    side := .buy
    quantityFilled := 3
    fillPrice := 50 }

/-- Witness for C9 at a concrete unknown-order fill. -/
theorem fill_unknown_order_still_updates_witness :
    alistLookup reduceState.pendingOrders unknownFill.associatedOrderId = none
    ∧ ((onOrderFilled reduceState unknownFill).pendingOrders
          = reduceState.pendingOrders
      ∧ alistLookup (onOrderFilled reduceState unknownFill).fills unknownFill.symbol
          = some ((alistLookup reduceState.fills unknownFill.symbol).getD []
              ++ [fillRecordOfEvent unknownFill])
      ∧ (onOrderFilled reduceState unknownFill).positions
          = (updatePosition reduceState unknownFill).positions
      ∧ (onOrderFilled reduceState unknownFill).avgPrices
          = (updatePosition reduceState unknownFill).avgPrices) :=
  ⟨by decide, fill_unknown_order_still_updates reduceState unknownFill (by decide)⟩

/-- Subscription state of the event bus (`messaging.eventbus.EventBus`).
Subscribers and event types are embedded as naturals; the `defaultdict` of
per-event-type subscriber sets is embedded extensionally as a function into
finite sets (a missing key reads as the empty set). -/
structure EventBusState where
  perEventSubscriptions : Nat → Finset Nat
  subscribers : Finset Nat

/-- `EventBus.subscribe`: add the subscriber to the global set and to the
per-event-type set of the given type. -/
def busSubscribe (b : EventBusState) (subscriber evType : Nat) : EventBusState :=
  { subscribers := insert subscriber b.subscribers
    perEventSubscriptions := fun t =>
      if t = evType then insert subscriber (b.perEventSubscriptions t)
      else b.perEventSubscriptions t }

/-- `EventBus.unsubscribe`: discard the subscriber from every per-event-type
set and from the global set. -/
def busUnsubscribe (b : EventBusState) (subscriber : Nat) : EventBusState :=
  { subscribers := b.subscribers.erase subscriber
    perEventSubscriptions := fun t => (b.perEventSubscriptions t).erase subscriber }

/-- Bus state in which subscriber `7` is already subscribed to event type `0`,
used for the C7 counterexample. -/
def busWithSub : EventBusState :=
  { perEventSubscriptions := fun t => if t = 0 then {7} else ∅
    subscribers := {7} }

/-- C7 is false as stated: starting from a bus where subscriber `7` is
subscribed to event type `0`, subscribing `7` to event type `1` and then
unsubscribing `7` does not restore the prior state, because `unsubscribe`
removes the subscriber from every per-event-type set. -/
theorem bus_subscribe_unsubscribe_counterexample :
    busUnsubscribe (busSubscribe busWithSub 7 1) 7 ≠ busWithSub := by
  intro h
  have h0 := congrArg (fun b => b.perEventSubscriptions 0) h
  simp only [busUnsubscribe, busSubscribe, busWithSub] at h0
  norm_num at h0
  exact absurd h0 (by decide)

/-- C7 (amended): subscribing a subscriber to an event type and then
unsubscribing it restores the bus's subscription state, provided the
subscriber was not subscribed to anything beforehand (absent from the global
set and from every per-event-type set). -/
theorem bus_subscribe_unsubscribe_restores (b : EventBusState)
    (subscriber evType : Nat)
    (hsub : subscriber ∉ b.subscribers)
    (hper : ∀ t, subscriber ∉ b.perEventSubscriptions t) :
    busUnsubscribe (busSubscribe b subscriber evType) subscriber = b := by
  obtain ⟨per, subs⟩ := b
  simp only [busSubscribe, busUnsubscribe, EventBusState.mk.injEq]
  constructor
  · funext t
    by_cases ht : t = evType
    · rw [if_pos ht]
      exact Finset.erase_insert (hper t)
    · rw [if_neg ht]
      exact Finset.erase_eq_of_not_mem (hper t)
  · exact Finset.erase_insert hsub

/-- Empty event bus used to witness the amended C7. -/
def emptyBus : EventBusState :=
  { perEventSubscriptions := fun _ => ∅, subscribers := ∅ }

/-- Witness for the amended C7: a fresh subscriber on the empty bus. -/
theorem bus_subscribe_unsubscribe_restores_witness :
    (3 ∉ emptyBus.subscribers ∧ ∀ t, 3 ∉ emptyBus.perEventSubscriptions t)
    ∧ busUnsubscribe (busSubscribe emptyBus 3 1) 3 = emptyBus :=
  ⟨⟨by simp [emptyBus], fun t => by simp [emptyBus]⟩,
    bus_subscribe_unsubscribe_restores emptyBus 3 1 (by simp [emptyBus])
      (fun t => by simp [emptyBus])⟩

/-- State of an `EventSubscriber` (`core/event_subscriber.py`): the running
flag, the FIFO inbox (where `none` embeds the poison pill), and whether the
worker has dequeued an event whose handler has not yet returned. -/
structure SubscriberState where
  running : Bool
  inbox : List (Option Nat)
  inFlight : Bool

/-- `EventSubscriber.receive`: enqueue if and only if still running. -/
def subscriberReceive (s : SubscriberState) (e : Nat) : SubscriberState :=
  if s.running then { s with inbox := s.inbox ++ [some e] } else s

/-- `EventSubscriber.shutdown`: a no-op when already stopped; otherwise set
running to false and enqueue the poison pill (the bus unsubscription and the
thread join do not change this state). -/
def subscriberShutdown (s : SubscriberState) : SubscriberState :=
  if s.running then { s with running := false, inbox := s.inbox ++ [none] }
  else s

/-- Control-flow outcome of `EventSubscriber.wait_until_idle`: either return
at once, or block on `queue.join()` until all queued and in-flight events
have been processed. -/
inductive WaitBehavior
  | returnsImmediately
  | joinsInbox
  deriving DecidableEq, Repr

/-- `EventSubscriber.wait_until_idle` returns immediately when the running
flag is false, and otherwise joins the inbox. -/
def subscriberWaitUntilIdle (s : SubscriberState) : WaitBehavior :=
  if s.running then .joinsInbox else .returnsImmediately

/-- C10: after `shutdown()` the running flag is false and any
`wait_until_idle()` call returns immediately, regardless of the events still
in the inbox and of any in-flight handler invocation. -/
theorem wait_until_idle_after_shutdown (s : SubscriberState) :
    (subscriberShutdown s).running = false
    ∧ subscriberWaitUntilIdle (subscriberShutdown s)
        = WaitBehavior.returnsImmediately := by
  unfold subscriberShutdown subscriberWaitUntilIdle
  by_cases h : s.running <;> simp [h]

/-- Order submission request (`events.requests.OrderSubmissionRequest`),
restricted to the fields the broker reads. -/
structure OrderSubmissionRequest where
  tsEventNs : Int
  systemOrderId : Nat
  symbol : String
  orderType : OrderType
  side : TradeSide
  quantity : ℚ
  limitPrice : Option ℚ := none
  stopPrice : Option ℚ := none
  deriving DecidableEq, Repr

/-- Modelled from the spec: the broker's internal order record
(`{system_id, symbol, type, side, quantity, limit?, stop?, triggered}`);
`brokers/simulated.py` itself is not part of the sources, only its tests and
callers are. -/
structure BrokerOrder where
  systemId : Nat
  symbol : String
  orderType : OrderType
  side : TradeSide
  quantity : ℚ
  limitPrice : Option ℚ := none
  stopPrice : Option ℚ := none
  triggered : Bool := false
  deriving DecidableEq, Repr

/-- Fill data carried by a `FillEvent` emitted by the simulated broker. -/
structure BrokerFill where
  associatedOrderId : Nat
  symbol : String
  side : TradeSide
  quantityFilled : ℚ
  fillPrice : ℚ
  tsBrokerNs : Int
  deriving DecidableEq, Repr

/-- Responses and fills published by the simulated broker, restricted to the
variants the verified claims mention. -/
inductive BrokerOutput
  | orderAccepted (id : Nat)
  | orderRejected (id : Nat)
  | cancellationAccepted (id : Nat)
  | cancellationRejected (id : Nat)
  | fill (f : BrokerFill)
  deriving DecidableEq, Repr

/-- Modelled from the spec: the broker's open-orders map with its
insertion-ordered auxiliary structure, embedded as one insertion-ordered
list keyed by `systemId` (`brokers/simulated.py` is missing from the
sources). -/
structure BrokerState where
  openOrders : List BrokerOrder
  deriving DecidableEq, Repr

/-- Ids of the orders currently in the open-orders map, in insertion order. -/
def orderIds (s : BrokerState) : List Nat :=
  s.openOrders.map BrokerOrder.systemId

/-- Modelled from the spec: the LIMIT rows of the matching table — a LIMIT
BUY fills when `bar.low ≤ limit` at `min(bar.open, limit)`, a LIMIT SELL
fills when `bar.high ≥ limit` at `max(bar.open, limit)`; otherwise no fill. -/
def limitMatch (bar : BarReceived) (o : BrokerOrder) : Option ℚ :=
  match o.side with
  | .buy =>
    if bar.low ≤ o.limitPrice.getD 0 then some (min bar.open_ (o.limitPrice.getD 0))
    else none
  | .sell =>
    if o.limitPrice.getD 0 ≤ bar.high then some (max bar.open_ (o.limitPrice.getD 0))
    else none

/-- Result of evaluating one open order against one bar: fill at a price, or
keep the (possibly re-triggered) order. -/
inductive MatchOutcome
  | fillAt (price : ℚ)
  | keep (o : BrokerOrder)
  deriving DecidableEq, Repr

/-- Modelled from the spec: the per-order-type matching table of
`SimulatedBroker` (§4.5).  MARKET fills at `bar.open`; LIMIT per
`limitMatch`; an untriggered STOP whose trigger test passes is marked
triggered, converted to MARKET for this bar and fills at
`max(bar.open, stop)` for BUY / `min(bar.open, stop)` for SELL; STOP_LIMIT
triggers on the stop test and behaves as LIMIT from the current bar onward. -/
def matchOrder (bar : BarReceived) (o : BrokerOrder) : MatchOutcome :=
  match o.orderType with
  | .market => .fillAt bar.open_
  | .limit =>
    match limitMatch bar o with
    | some p => .fillAt p
    | none => .keep o
  | .stop =>
    if o.triggered then .fillAt bar.open_
    else
      match o.side with
      | .buy =>
        if o.stopPrice.getD 0 ≤ bar.high then
          .fillAt (max bar.open_ (o.stopPrice.getD 0))
        else .keep o
      | .sell =>
        if bar.low ≤ o.stopPrice.getD 0 then
          .fillAt (min bar.open_ (o.stopPrice.getD 0))
        else .keep o
  | .stopLimit =>
    if o.triggered then
      match limitMatch bar o with
      | some p => .fillAt p
      | none => .keep o
    else
      if (match o.side with
          | .buy => decide (o.stopPrice.getD 0 ≤ bar.high)
          | .sell => decide (bar.low ≤ o.stopPrice.getD 0) : Bool) then
        match limitMatch bar o with
        | some p => .fillAt p
        | none => .keep { o with triggered := true }
      else .keep o

/-- Modelled from the spec: evaluation of one open order during a bar's
matching pass.  Orders for other symbols are untouched; a filled order emits
a full-quantity fill with `ts_broker_ns` equal to the bar's `ts_event_ns` and
is dropped from the open-orders map. -/
def processOrder (bar : BarReceived) (o : BrokerOrder) :
    Option BrokerFill × Option BrokerOrder :=
  if o.symbol ≠ bar.symbol then (none, some o)
  else
    match matchOrder bar o with
    | .fillAt p =>
      (some { associatedOrderId := o.systemId
              symbol := o.symbol
              side := o.side
              quantityFilled := o.quantity
              fillPrice := p
              tsBrokerNs := bar.tsEventNs }, none)
    | .keep o' => (none, some o')

/-- Modelled from the spec: the matching pass on a `BarReceived` — every
open order is evaluated in insertion order; filled orders are removed and
their fills emitted in that order. -/
def brokerOnBar (s : BrokerState) (bar : BarReceived) :
    BrokerState × List BrokerOutput :=
  (⟨s.openOrders.filterMap (fun o => (processOrder bar o).2)⟩,
   s.openOrders.filterMap (fun o => (processOrder bar o).1.map BrokerOutput.fill))

/-- Modelled from the spec: submission validation — quantity must be
positive, LIMIT requires a positive limit price, STOP a positive stop price,
STOP_LIMIT both. -/
def validateSubmission (r : OrderSubmissionRequest) : Bool :=
  decide (0 < r.quantity) &&
  match r.orderType with
  | .market => true
  | .limit =>
    match r.limitPrice with
    | some l => decide (0 < l)
    | none => false
  | .stop =>
    match r.stopPrice with
    | some p => decide (0 < p)
    | none => false
  | .stopLimit =>
    (match r.limitPrice with
      | some l => decide (0 < l)
      | none => false) &&
    (match r.stopPrice with
      | some p => decide (0 < p)
      | none => false)

/-- Modelled from the spec: the stored order record for an accepted
submission; MARKET and LIMIT orders start armed (`triggered = true`),
STOP and STOP_LIMIT start untriggered. -/
def orderOfRequest (r : OrderSubmissionRequest) : BrokerOrder :=
  { systemId := r.systemOrderId
    symbol := r.symbol
    orderType := r.orderType
    side := r.side
    quantity := r.quantity
    limitPrice := r.limitPrice
    stopPrice := r.stopPrice
    triggered := decide (r.orderType = .market ∨ r.orderType = .limit) }

/-- Modelled from the spec: submission handling — validate, then either
store the order (at the end of the insertion order) and accept, or reject
without storing. -/
def brokerSubmit (s : BrokerState) (r : OrderSubmissionRequest) :
    BrokerState × List BrokerOutput :=
  if validateSubmission r then
    (⟨s.openOrders ++ [orderOfRequest r]⟩, [.orderAccepted r.systemOrderId])
  else (s, [.orderRejected r.systemOrderId])

/-- Modelled from the spec: cancellation handling — if the id is in the
open-orders map, remove it and accept; otherwise reject. -/
def brokerCancel (s : BrokerState) (id : Nat) : BrokerState × List BrokerOutput :=
  if s.openOrders.any (fun o => o.systemId = id) then
    (⟨s.openOrders.filter (fun o => o.systemId ≠ id)⟩, [.cancellationAccepted id])
  else (s, [.cancellationRejected id])

/-- Inputs consumed by the simulated broker's worker loop, restricted to the
variants the verified claims mention. -/
inductive BrokerInput
  | submission (r : OrderSubmissionRequest)
  | cancellation (id : Nat)
  | bar (b : BarReceived)
  deriving DecidableEq, Repr

/-- One broker worker-loop iteration: dispatch one input to its handler. -/
def brokerStep (s : BrokerState) (i : BrokerInput) :
    BrokerState × List BrokerOutput :=
  match i with
  | .submission r => brokerSubmit s r
  | .cancellation id => brokerCancel s id
  | .bar b => brokerOnBar s b

/-- All outputs the broker publishes while consuming a list of inputs in
order. -/
def brokerRun (s : BrokerState) : List BrokerInput → List BrokerOutput
  | [] => []
  | i :: rest => (brokerStep s i).2 ++ brokerRun (brokerStep s i).1 rest

/-- Evaluating an order against a bar never changes its id when the order is
kept. -/
theorem matchOrder_keep_systemId (bar : BarReceived) (o o' : BrokerOrder)
    (h : matchOrder bar o = MatchOutcome.keep o') : o'.systemId = o.systemId := by
  unfold matchOrder limitMatch at h
  cases hot : o.orderType <;> cases hs : o.side <;>
    simp only [hot, hs] at h <;>
    repeat' (split at h)
  all_goals first
    | exact MatchOutcome.noConfusion h
    | (injection h with h1; subst h1; rfl)

/-- A fill produced by evaluating an order carries the order's id, symbol,
side, full quantity, and the bar's timestamp as the broker timestamp. -/
theorem processOrder_fst_spec (bar : BarReceived) (o : BrokerOrder)
    (f : BrokerFill) (h : (processOrder bar o).1 = some f) :
    f.associatedOrderId = o.systemId ∧ f.quantityFilled = o.quantity
    ∧ f.symbol = o.symbol ∧ f.side = o.side ∧ f.tsBrokerNs = bar.tsEventNs := by
  unfold processOrder at h
  split at h
  · exact absurd h (by simp)
  · split at h
    · injection h with h1
      subst h1
      exact ⟨rfl, rfl, rfl, rfl, rfl⟩
    · exact absurd h (by simp)

/-- An order kept by a matching pass keeps its id. -/
theorem processOrder_snd_systemId (bar : BarReceived) (o o' : BrokerOrder)
    (h : (processOrder bar o).2 = some o') : o'.systemId = o.systemId := by
  unfold processOrder at h
  split at h
  · injection h with h1
    subst h1
    rfl
  · split at h
    · exact absurd h (by simp)
    · rename_i o'' heq
      injection h with h1
      subst h1
      exact matchOrder_keep_systemId bar o o'' heq

/-- Evaluation of a LIMIT BUY order against a matching-symbol bar: it fills
at `min(bar.open, limit)` exactly when `bar.low ≤ limit`, and is otherwise
kept unchanged. -/
theorem processOrder_limit_buy (bar : BarReceived) (o : BrokerOrder) (L : ℚ)
    (ht : o.orderType = .limit) (hs : o.side = .buy) (hl : o.limitPrice = some L)
    (hsym : o.symbol = bar.symbol) :
    processOrder bar o =
      if bar.low ≤ L then
        (some { associatedOrderId := o.systemId
                symbol := o.symbol
                side := o.side
                quantityFilled := o.quantity
                fillPrice := min bar.open_ L
                tsBrokerNs := bar.tsEventNs }, none)
      else (none, some o) := by
  unfold processOrder matchOrder limitMatch
  rw [if_neg (by simp [hsym])]
  simp only [ht, hs, hl, Option.getD_some]
  split_ifs with hc <;> rfl

/-- Evaluation of an untriggered STOP BUY order against a matching-symbol
bar: it triggers and fills at `max(bar.open, stop)` exactly when
`bar.high ≥ stop`, and is otherwise kept unchanged (still untriggered). -/
theorem processOrder_stop_buy (bar : BarReceived) (o : BrokerOrder) (P : ℚ)
    (ht : o.orderType = .stop) (hs : o.side = .buy) (htr : o.triggered = false)
    (hp : o.stopPrice = some P) (hsym : o.symbol = bar.symbol) :
    processOrder bar o =
      if P ≤ bar.high then
        (some { associatedOrderId := o.systemId
                symbol := o.symbol
                side := o.side
                quantityFilled := o.quantity
                fillPrice := max bar.open_ P
                tsBrokerNs := bar.tsEventNs }, none)
      else (none, some o) := by
  unfold processOrder matchOrder
  rw [if_neg (by simp [hsym])]
  simp only [ht, hs, hp, htr, Option.getD_some, Bool.false_eq_true, if_false]
  split_ifs with hc <;> rfl

/-- Two open orders sharing an id are the same order when the open-orders
ids are duplicate-free. -/
theorem openOrders_id_inj (s : BrokerState) (hnd : (orderIds s).Nodup)
    {a b : BrokerOrder} (ha : a ∈ s.openOrders) (hb : b ∈ s.openOrders)
    (h : a.systemId = b.systemId) : a = b :=
  List.inj_on_of_nodup_map hnd ha hb h

/-- Every fill emitted by a matching pass originates from an order that was
open when the pass began and carries that order's id. -/
theorem brokerOnBar_fill_mem (s : BrokerState) (bar : BarReceived)
    (f : BrokerFill) (hf : BrokerOutput.fill f ∈ (brokerOnBar s bar).2) :
    ∃ o ∈ s.openOrders, (processOrder bar o).1 = some f
      ∧ f.associatedOrderId = o.systemId := by
  simp only [brokerOnBar, List.mem_filterMap] at hf
  obtain ⟨o, ho, hmap⟩ := hf
  cases hpo : (processOrder bar o).1 with
  | none =>
    rw [hpo] at hmap
    exact absurd hmap (by simp)
  | some g =>
    rw [hpo] at hmap
    have hg : g = f := by
      injection hmap with h1
      injection h1
    subst hg
    exact ⟨o, ho, hpo, (processOrder_fst_spec bar o g hpo).1⟩

/-- A fill produced by some open order appears among the matching pass's
outputs. -/
theorem brokerOnBar_fill_of (s : BrokerState) (bar : BarReceived)
    (o : BrokerOrder) (f : BrokerFill) (hmem : o ∈ s.openOrders)
    (hpo : (processOrder bar o).1 = some f) :
    BrokerOutput.fill f ∈ (brokerOnBar s bar).2 := by
  simp only [brokerOnBar, List.mem_filterMap]
  exact ⟨o, hmem, by rw [hpo]; rfl⟩

/-- An order that fills during a matching pass is removed from the
open-orders map (no other order can re-introduce its id when ids are
duplicate-free). -/
theorem brokerOnBar_removed (s : BrokerState) (bar : BarReceived)
    (o : BrokerOrder) (hnd : (orderIds s).Nodup) (hmem : o ∈ s.openOrders)
    (hfill : (processOrder bar o).2 = none) :
    o.systemId ∉ orderIds (brokerOnBar s bar).1 := by
  intro hin
  simp only [brokerOnBar, orderIds, List.mem_map] at hin
  obtain ⟨o', ho', hid⟩ := hin
  rw [List.mem_filterMap] at ho'
  obtain ⟨a, ha, hpa⟩ := ho'
  have hids : a.systemId = o.systemId := by
    rw [← processOrder_snd_systemId bar a o' hpa]
    exact hid
  have haeq : a = o := openOrders_id_inj s hnd ha hmem hids
  subst haeq
  rw [hfill] at hpa
  exact Option.noConfusion hpa

/-- An order that the pass does not fill contributes no fill output carrying
its id when the open-orders ids are duplicate-free. -/
theorem brokerOnBar_no_fill_of (s : BrokerState) (bar : BarReceived)
    (o : BrokerOrder) (hnd : (orderIds s).Nodup) (hmem : o ∈ s.openOrders)
    (hnofill : (processOrder bar o).1 = none) :
    ∀ f, BrokerOutput.fill f ∈ (brokerOnBar s bar).2 →
      f.associatedOrderId ≠ o.systemId := by
  intro f hf heq
  obtain ⟨a, ha, hpa, hassoc⟩ := brokerOnBar_fill_mem s bar f hf
  have haeq : a = o := openOrders_id_inj s hnd ha hmem (by rw [← hassoc, heq])
  subst haeq
  rw [hnofill] at hpa
  exact Option.noConfusion hpa

/-- C1: an accepted LIMIT BUY order that is open when a matching-symbol bar
arrives fills if and only if `bar.low ≤ limit`; the fill is for the full
order quantity at price `min(bar.open, limit)`, and the filled order is
removed from the open-orders map (otherwise it stays open unchanged and no
fill carries its id). -/
theorem limit_buy_fill_iff (s : BrokerState) (bar : BarReceived)
    (o : BrokerOrder) (L : ℚ) (hmem : o ∈ s.openOrders)
    (hnd : (orderIds s).Nodup) (ht : o.orderType = .limit)
    (hs : o.side = .buy) (hl : o.limitPrice = some L)
    (hsym : o.symbol = bar.symbol) :
    (bar.low ≤ L →
      BrokerOutput.fill { associatedOrderId := o.systemId
                          symbol := o.symbol
                          side := o.side
                          quantityFilled := o.quantity
                          fillPrice := min bar.open_ L
                          tsBrokerNs := bar.tsEventNs } ∈ (brokerOnBar s bar).2
      ∧ o.systemId ∉ orderIds (brokerOnBar s bar).1)
    ∧ (¬ bar.low ≤ L →
      (∀ f, BrokerOutput.fill f ∈ (brokerOnBar s bar).2 →
        f.associatedOrderId ≠ o.systemId)
      ∧ o ∈ (brokerOnBar s bar).1.openOrders) := by
  have hpo := processOrder_limit_buy bar o L ht hs hl hsym
  constructor
  · intro hc
    rw [if_pos hc] at hpo
    exact ⟨brokerOnBar_fill_of s bar o _ hmem (by rw [hpo]),
      brokerOnBar_removed s bar o hnd hmem (by rw [hpo])⟩
  · intro hc
    rw [if_neg hc] at hpo
    have h1 : (processOrder bar o).1 = none := by rw [hpo]
    have h2 : (processOrder bar o).2 = some o := by rw [hpo]
    exact ⟨brokerOnBar_no_fill_of s bar o hnd hmem h1,
      List.mem_filterMap.mpr ⟨o, hmem, h2⟩⟩

/-- Open LIMIT BUY order (limit 100, already armed) used to witness C1. -/
def limitBuyOrder : BrokerOrder :=
  { systemId := 5
    symbol := "AAPL"
    orderType := .limit
    side := .buy
    quantity := 100
    limitPrice := some 100
    triggered := true }

/-- Broker state holding only `limitBuyOrder`, used to witness C1. -/
def limitBuyState : BrokerState := ⟨[limitBuyOrder]⟩

/-- Bar whose low touches the limit price 100, used to witness C1. -/
def touchBar : BarReceived :=
  { tsEventNs := 1001
    symbol := "AAPL"
    barPeriod := .minute
    open_ := 105
    high := 110
    low := 99
    close := 107
    volume := some 1000 }

/-- Fill that C1's witness expects: full quantity at `min(105, 100)`. -/
def limitBuyFill : BrokerFill :=
  { associatedOrderId := limitBuyOrder.systemId
    symbol := limitBuyOrder.symbol
    side := limitBuyOrder.side
    quantityFilled := limitBuyOrder.quantity
    fillPrice := min touchBar.open_ 100
    tsBrokerNs := touchBar.tsEventNs }

/-- Witness for C1: the bar with low 99 fills the limit-100 BUY at
`min(105, 100)` and removes it from the open orders. -/
theorem limit_buy_fill_iff_witness :
    touchBar.low ≤ (100 : ℚ)
    ∧ (BrokerOutput.fill limitBuyFill ∈ (brokerOnBar limitBuyState touchBar).2
      ∧ limitBuyOrder.systemId ∉ orderIds (brokerOnBar limitBuyState touchBar).1) := by
  have hlow : touchBar.low ≤ (100 : ℚ) := by norm_num [touchBar]
  exact ⟨hlow, (limit_buy_fill_iff limitBuyState touchBar limitBuyOrder 100
    (by simp [limitBuyState]) (by simp [orderIds, limitBuyState])
    rfl rfl rfl rfl).1 hlow⟩

/-- C4: an accepted untriggered STOP BUY order evaluated against a
matching-symbol bar triggers and fills on that same bar at
`max(bar.open, stop)` exactly when `bar.high ≥ stop` (including equality),
and the filled order leaves the open-orders map; when `bar.high < stop` the
order stays open, still untriggered, and no fill carries its id. -/
theorem stop_buy_trigger_iff (s : BrokerState) (bar : BarReceived)
    (o : BrokerOrder) (P : ℚ) (hmem : o ∈ s.openOrders)
    (hnd : (orderIds s).Nodup) (ht : o.orderType = .stop)
    (hs : o.side = .buy) (htr : o.triggered = false)
    (hp : o.stopPrice = some P) (hsym : o.symbol = bar.symbol) :
    (P ≤ bar.high →
      BrokerOutput.fill { associatedOrderId := o.systemId
                          symbol := o.symbol
                          side := o.side
                          quantityFilled := o.quantity
                          fillPrice := max bar.open_ P
                          tsBrokerNs := bar.tsEventNs } ∈ (brokerOnBar s bar).2
      ∧ o.systemId ∉ orderIds (brokerOnBar s bar).1)
    ∧ (¬ P ≤ bar.high →
      (∀ f, BrokerOutput.fill f ∈ (brokerOnBar s bar).2 →
        f.associatedOrderId ≠ o.systemId)
      ∧ o ∈ (brokerOnBar s bar).1.openOrders
      ∧ o.triggered = false) := by
  have hpo := processOrder_stop_buy bar o P ht hs htr hp hsym
  constructor
  · intro hc
    rw [if_pos hc] at hpo
    exact ⟨brokerOnBar_fill_of s bar o _ hmem (by rw [hpo]),
      brokerOnBar_removed s bar o hnd hmem (by rw [hpo])⟩
  · intro hc
    rw [if_neg hc] at hpo
    have h1 : (processOrder bar o).1 = none := by rw [hpo]
    have h2 : (processOrder bar o).2 = some o := by rw [hpo]
    exact ⟨brokerOnBar_no_fill_of s bar o hnd hmem h1,
      List.mem_filterMap.mpr ⟨o, hmem, h2⟩, htr⟩

/-- Open untriggered STOP BUY order (stop 110) used to witness C4. -/
def stopBuyOrder : BrokerOrder :=
  { systemId := 6
    symbol := "AAPL"
    orderType := .stop
    side := .buy
    quantity := 100
    stopPrice := some 110
    triggered := false }

/-- Broker state holding only `stopBuyOrder`, used to witness C4. -/
def stopBuyState : BrokerState := ⟨[stopBuyOrder]⟩

/-- Fill that C4's witness expects: full quantity at `max(105, 110)`. -/
def stopBuyFill : BrokerFill :=
  { associatedOrderId := stopBuyOrder.systemId
    symbol := stopBuyOrder.symbol
    side := stopBuyOrder.side
    quantityFilled := stopBuyOrder.quantity
    fillPrice := max touchBar.open_ 110
    tsBrokerNs := touchBar.tsEventNs }

/-- Witness for C4: a bar with high 115 triggers the stop-110 BUY, which
fills on the same bar at `max(105, 110)` and leaves the open orders. -/
theorem stop_buy_trigger_iff_witness :
    (110 : ℚ) ≤ touchBar.high
    ∧ (BrokerOutput.fill stopBuyFill ∈ (brokerOnBar stopBuyState touchBar).2
      ∧ stopBuyOrder.systemId ∉ orderIds (brokerOnBar stopBuyState touchBar).1) := by
  have hhigh : (110 : ℚ) ≤ touchBar.high := by norm_num [touchBar]
  exact ⟨hhigh, (stop_buy_trigger_iff stopBuyState touchBar stopBuyOrder 110
    (by simp [stopBuyState]) (by simp [orderIds, stopBuyState])
    rfl rfl rfl rfl rfl).1 hhigh⟩

/-- A cancellation request leaves no order with the cancelled id in the
open-orders map, whether it was accepted or rejected. -/
theorem brokerCancel_removes (s : BrokerState) (id : Nat) :
    id ∉ orderIds (brokerCancel s id).1 := by
  unfold brokerCancel
  split_ifs with hc
  · intro h
    simp only [orderIds, List.mem_map] at h
    obtain ⟨o, ho, hid⟩ := h
    have h1 := List.of_mem_filter ho
    simp only [decide_eq_true_eq] at h1
    exact h1 hid
  · intro h
    simp only [orderIds, List.mem_map] at h
    obtain ⟨o, ho, hid⟩ := h
    exact hc (List.any_eq_true.mpr ⟨o, ho, by simp [hid]⟩)

/-- A broker step that is not a submission of a given id keeps that id out
of the open-orders map and never emits a fill carrying it. -/
theorem brokerStep_preserves_absent (s : BrokerState) (i : BrokerInput)
    (id : Nat) (hout : id ∉ orderIds s)
    (hsub : ∀ r, i = BrokerInput.submission r → r.systemOrderId ≠ id) :
    id ∉ orderIds (brokerStep s i).1
    ∧ ∀ f, BrokerOutput.fill f ∈ (brokerStep s i).2 →
        f.associatedOrderId ≠ id := by
  cases i with
  | submission r =>
    have hr := hsub r rfl
    constructor
    · simp only [brokerStep, brokerSubmit]
      split_ifs with hv
      · intro h
        simp only [orderIds, List.map_append, List.mem_append, List.map_cons,
          List.map_nil, List.mem_singleton] at h
        rcases h with h | h
        · exact hout (by simpa [orderIds] using h)
        · exact hr h.symm
      · exact hout
    · simp only [brokerStep, brokerSubmit]
      split_ifs with hv <;> intro f hf <;> simp at hf
  | cancellation j =>
    constructor
    · simp only [brokerStep, brokerCancel]
      split_ifs with hc
      · intro h
        simp only [orderIds, List.mem_map] at h
        obtain ⟨o, ho, hid⟩ := h
        exact hout (by
          simp only [orderIds, List.mem_map]
          exact ⟨o, List.mem_of_mem_filter ho, hid⟩)
      · exact hout
    · simp only [brokerStep, brokerCancel]
      split_ifs with hc <;> intro f hf <;> simp at hf
  | bar b =>
    constructor
    · intro h
      simp only [brokerStep, orderIds, brokerOnBar, List.mem_map] at h
      obtain ⟨o', ho', hid⟩ := h
      rw [List.mem_filterMap] at ho'
      obtain ⟨a, ha, hpa⟩ := ho'
      have hids : a.systemId = id := by
        rw [← processOrder_snd_systemId b a o' hpa]
        exact hid
      exact hout (by
        simp only [orderIds, List.mem_map]
        exact ⟨a, ha, hids⟩)
    · intro f hf heq
      simp only [brokerStep] at hf
      obtain ⟨a, ha, hpa, hassoc⟩ := brokerOnBar_fill_mem s b f hf
      exact hout (by
        simp only [orderIds, List.mem_map]
        exact ⟨a, ha, by rw [← hassoc, heq]⟩)

/-- While an id stays out of the open-orders map and no submission reuses
it, no fill the broker emits carries it. -/
theorem brokerRun_no_fill_of_absent (inputs : List BrokerInput)
    (s : BrokerState) (id : Nat) (hout : id ∉ orderIds s)
    (hfresh : ∀ r, BrokerInput.submission r ∈ inputs → r.systemOrderId ≠ id) :
    ∀ f, BrokerOutput.fill f ∈ brokerRun s inputs →
      f.associatedOrderId ≠ id := by
  induction inputs generalizing s with
  | nil =>
    intro f hf
    simp [brokerRun] at hf
  | cons i rest ih =>
    intro f hf
    simp only [brokerRun, List.mem_append] at hf
    have hstep := brokerStep_preserves_absent s i id hout
      (fun r hr => hfresh r (hr ▸ List.mem_cons_self i rest))
    rcases hf with hf | hf
    · exact hstep.2 f hf
    · exact ih (brokerStep s i).1 hstep.1
        (fun r hr => hfresh r (List.mem_cons_of_mem i hr)) f hf

/-- C5: once the broker has emitted `CancellationAccepted` for an order id
(and no later submission reuses that id), no subsequent `FillEvent` carries
that `associated_order_id`: the cancellation removes the id from the
open-orders map, so no later bar's matching pass can fill it. -/
theorem cancelled_order_never_fills (s : BrokerState) (id : Nat)
    (inputs : List BrokerInput)
    (hacc : BrokerOutput.cancellationAccepted id
      ∈ (brokerStep s (BrokerInput.cancellation id)).2)
    (hfresh : ∀ r, BrokerInput.submission r ∈ inputs → r.systemOrderId ≠ id) :
    ∀ f, BrokerOutput.fill f
        ∈ brokerRun (brokerStep s (BrokerInput.cancellation id)).1 inputs →
      f.associatedOrderId ≠ id :=
  brokerRun_no_fill_of_absent inputs _ id (brokerCancel_removes s id) hfresh

/-- Witness for C5: cancelling the open limit-100 BUY (id 5) is accepted,
and a later bar that touches the limit produces no fill carrying id 5. -/
theorem cancelled_order_never_fills_witness :
    BrokerOutput.cancellationAccepted 5
      ∈ (brokerStep limitBuyState (BrokerInput.cancellation 5)).2
    ∧ (∀ r, BrokerInput.submission r ∈ [BrokerInput.bar touchBar] →
        r.systemOrderId ≠ 5)
    ∧ ∀ f, BrokerOutput.fill f
        ∈ brokerRun (brokerStep limitBuyState (BrokerInput.cancellation 5)).1
            [BrokerInput.bar touchBar] →
      f.associatedOrderId ≠ 5 := by
  have hacc : BrokerOutput.cancellationAccepted 5
      ∈ (brokerStep limitBuyState (BrokerInput.cancellation 5)).2 := by
    simp [brokerStep, brokerCancel, limitBuyState, limitBuyOrder]
  have hfresh : ∀ r, BrokerInput.submission r ∈ [BrokerInput.bar touchBar] →
      r.systemOrderId ≠ 5 := by
    intro r hr
    simp at hr
  exact ⟨hacc, hfresh,
    cancelled_order_never_fills limitBuyState 5 [BrokerInput.bar touchBar] hacc hfresh⟩

/-- Processed-bar event (`events.market.BarProcessed`): the bar's fields
plus an ordered mapping from indicator key to value, embedded as the list of
key-value pairs in insertion order with Python-dict (last-wins) lookup. -/
structure BarProcessed where
  tsEventNs : Int
  symbol : String
  barPeriod : BarPeriod
  open_ : ℚ
  high : ℚ
  low : ℚ
  close : ℚ
  volume : Option Int
  indicators : List (String × EFloat)

/-- Lookup in a Python dict built from a comprehension: a later entry for
the same key overwrites an earlier one. -/
def dictLookup {α : Type} : List (String × α) → String → Option α
  | [], _ => none
  | p :: rest, key =>
    match dictLookup rest key with
    | some v => some v
    | none => if p.1 = key then some p.2 else none

/-- A key that appears in no entry reads as absent. -/
theorem dictLookup_eq_none {α : Type} (l : List (String × α)) (k : String)
    (h : k ∉ l.map Prod.fst) : dictLookup l k = none := by
  induction l with
  | nil => rfl
  | cons p rest ih =>
    simp only [List.map_cons, List.mem_cons] at h
    push_neg at h
    obtain ⟨h1, h2⟩ := h
    simp only [dictLookup, ih h2]
    rw [if_neg (fun hh => h1 hh.symm)]

/-- With duplicate-free keys, the dict lookup of a stored pair's key returns
its value. -/
theorem dictLookup_of_nodup {α : Type} (l : List (String × α)) (k : String)
    (v : α) (hnd : (l.map Prod.fst).Nodup) (hmem : (k, v) ∈ l) :
    dictLookup l k = some v := by
  induction l with
  | nil => cases hmem
  | cons p rest ih =>
    simp only [List.map_cons, List.nodup_cons] at hnd
    obtain ⟨hp, hrest⟩ := hnd
    rcases List.mem_cons.mp hmem with heq | hmem'
    · subst heq
      simp only [dictLookup, dictLookup_eq_none rest k hp]
      simp
    · simp only [dictLookup, ih hrest hmem']

/-- Names of the built-in OHLCV passthrough indicators excluded from
`BarProcessed.indicators` (`StrategyBase._emit_processed_bar`). -/
def ohlcvNames : List String := ["OPEN", "HIGH", "LOW", "CLOSE", "VOLUME"]

/-- Python `f"{n:02d}"` for a nonnegative panel id: pad to two digits. -/
def fmt2 (n : Nat) : String := if n < 10 then "0" ++ toString n else toString n

/-- Key of an indicator in the processed bar's map:
`f"{ind.plot_at:02d}_{ind.name}"`. -/
def indicatorKey (ind : Indicator) : String :=
  fmt2 ind.plotAt ++ "_" ++ ind.name

/-- `StrategyBase._emit_processed_bar`: copy the bar's fields and attach the
map from each non-OHLCV indicator's key to its latest value for the bar's
symbol. -/
def emitProcessedBar (inds : List Indicator) (e : BarReceived) : BarProcessed :=
  { tsEventNs := e.tsEventNs
    symbol := e.symbol
    barPeriod := e.barPeriod
    open_ := e.open_
    high := e.high
    low := e.low
    close := e.close
    volume := e.volume
    indicators :=
      (inds.filter (fun i => !(ohlcvNames.contains i.name))).map
        (fun i => (indicatorKey i, i.latest e.symbol)) }

/-- `StrategyBase._on_bar_received`: drop the bar unless its symbol is
configured and its period matches; otherwise set the current symbol and
timestamp, update every registered indicator in registration order, and
publish exactly one processed bar (the user `on_bar` hook runs afterwards
and publishes no `BarProcessed`). -/
def onBarReceived (s : StrategyState) (e : BarReceived) :
    StrategyState × Option BarProcessed :=
  if e.symbol ∈ s.symbols ∧ e.barPeriod = s.barPeriod then
    ({ s with
        currentSymbol := e.symbol
        currentTs := e.tsEventNs
        indicators := s.indicators.map (fun i => i.update e) },
     some (emitProcessedBar (s.indicators.map (fun i => i.update e)) e))
  else (s, none)

/-- C6: a handled `BarReceived` produces exactly one `BarProcessed` whose
bar fields are identical, and whose indicators map holds, for every
registered non-OHLCV indicator, the key `{plot_at:02d}_{name}` with that
indicator's post-update `latest(symbol)` (provided the indicator keys are
duplicate-free, as Python-dict insertion would otherwise drop entries). -/
theorem bar_processed_exactly_one (s : StrategyState) (e : BarReceived)
    (hsym : e.symbol ∈ s.symbols) (hper : e.barPeriod = s.barPeriod)
    (hnd : (((s.indicators.map (fun i => i.update e)).filter
        (fun i => !(ohlcvNames.contains i.name))).map indicatorKey).Nodup) :
    ∃ p, (onBarReceived s e).2 = some p
      ∧ p.symbol = e.symbol ∧ p.barPeriod = e.barPeriod
      ∧ p.open_ = e.open_ ∧ p.high = e.high ∧ p.low = e.low
      ∧ p.close = e.close ∧ p.volume = e.volume
      ∧ ∀ ind ∈ s.indicators, ind.name ∉ ohlcvNames →
          dictLookup p.indicators (indicatorKey ind)
            = some ((ind.update e).latest e.symbol) := by
  refine ⟨emitProcessedBar (s.indicators.map (fun i => i.update e)) e, ?_,
    rfl, rfl, rfl, rfl, rfl, rfl, rfl, ?_⟩
  · simp only [onBarReceived, if_pos (And.intro hsym hper)]
  · intro ind hmem hohlcv
    have hupd : ind.update e ∈ s.indicators.map (fun i => i.update e) :=
      List.mem_map_of_mem _ hmem
    have hfil : ind.update e ∈ (s.indicators.map (fun i => i.update e)).filter
        (fun i => !(ohlcvNames.contains i.name)) := by
      rw [List.mem_filter]
      refine ⟨hupd, ?_⟩
      have hname : (ind.update e).name = ind.name := rfl
      simpa [hname] using hohlcv
    have hpair : (indicatorKey (ind.update e), (ind.update e).latest e.symbol)
        ∈ ((s.indicators.map (fun i => i.update e)).filter
            (fun i => !(ohlcvNames.contains i.name))).map
          (fun i => (indicatorKey i, i.latest e.symbol)) :=
      List.mem_map_of_mem _ hfil
    have hkeys : (((s.indicators.map (fun i => i.update e)).filter
          (fun i => !(ohlcvNames.contains i.name))).map
        (fun i => (indicatorKey i, i.latest e.symbol))).map Prod.fst
        = ((s.indicators.map (fun i => i.update e)).filter
          (fun i => !(ohlcvNames.contains i.name))).map indicatorKey := by
      rw [List.map_map]
      rfl
    have hkey : indicatorKey (ind.update e) = indicatorKey ind := rfl
    rw [← hkey]
    exact dictLookup_of_nodup _ _ _
      (by simp only [emitProcessedBar]; rw [hkeys]; exact hnd) hpair

/-- OHLCV passthrough indicator (`indicators.Open`) registered by the
strategy base, used in the C6 witness. -/
def openPassthrough : Indicator :=
  { name := "OPEN"
    plotAt := 0
    maxHistory := 100
    compute := fun _ b => some b.open_
    seen := []
    historyData := [] }

/-- Plain registered indicator on panel 1, used in the C6 witness. -/
def smaIndicator : Indicator :=
  { name := "SMA_2_CLOSE"
    plotAt := 1
    maxHistory := 100
    compute := fun _ _ => some 5
    seen := []
    historyData := [] }

/-- Strategy configured for symbol `"A"` with one OHLCV passthrough and one
plain indicator, used in the C6 witness. -/
def c6State : StrategyState :=
  { reduceState with symbols := ["A"], indicators := [openPassthrough, smaIndicator] }

/-- Matching bar for the C6 witness. -/
def c6Bar : BarReceived :=
  { tsEventNs := 1000
    symbol := "A"
    barPeriod := .minute
    open_ := 10
    high := 12
    low := 9
    close := 11
    volume := some 100 }

/-- Witness for C6 at a concrete strategy and bar: the bar is handled, the
indicator keys are duplicate-free, and the processed bar has the claimed
shape. -/
theorem bar_processed_exactly_one_witness :
    (c6Bar.symbol ∈ c6State.symbols ∧ c6Bar.barPeriod = c6State.barPeriod
      ∧ (((c6State.indicators.map (fun i => i.update c6Bar)).filter
          (fun i => !(ohlcvNames.contains i.name))).map indicatorKey).Nodup)
    ∧ ∃ p, (onBarReceived c6State c6Bar).2 = some p
      ∧ p.symbol = c6Bar.symbol ∧ p.barPeriod = c6Bar.barPeriod
      ∧ p.open_ = c6Bar.open_ ∧ p.high = c6Bar.high ∧ p.low = c6Bar.low
      ∧ p.close = c6Bar.close ∧ p.volume = c6Bar.volume
      ∧ ∀ ind ∈ c6State.indicators, ind.name ∉ ohlcvNames →
          dictLookup p.indicators (indicatorKey ind)
            = some ((ind.update c6Bar).latest c6Bar.symbol) := by
  have h1 : c6Bar.symbol ∈ c6State.symbols := by
    simp [c6State, c6Bar, reduceState]
  have h2 : c6Bar.barPeriod = c6State.barPeriod := rfl
  have h3 : (((c6State.indicators.map (fun i => i.update c6Bar)).filter
      (fun i => !(ohlcvNames.contains i.name))).map indicatorKey).Nodup := by
    have hfil : (c6State.indicators.map (fun i => i.update c6Bar)).filter
        (fun i => !(ohlcvNames.contains i.name))
        = [smaIndicator.update c6Bar] := by
      simp [c6State, reduceState, openPassthrough, smaIndicator,
        Indicator.update, ohlcvNames]
    rw [hfil]
    exact List.nodup_singleton _
  exact ⟨⟨h1, h2, h3⟩, bar_processed_exactly_one c6State c6Bar h1 h2 h3⟩

/-- Row of the datafeed's catalog query
(`SELECT s.symbol, o.rtype, o.ts_event, o.open, o.high, o.low, o.close,
o.volume ... ORDER BY o.ts_event, s.symbol`); prices are integers scaled by
1e9. -/
structure CatalogRow where
  symbol : String
  rtype : Nat
  tsEvent : Int
  open_ : Int
  high : Int
  low : Int
  close : Int
  volume : Int
  deriving DecidableEq, Repr

/-- Price scale dividing the catalog's integer prices
(`SimulatedDatafeed.price_scale = 1e9`). -/
def priceScale : ℚ := 1000000000

/-- Inverse rtype map `{32: SECOND, 33: MINUTE, 34: HOUR, 35: DAY}`
(`_RTYPE_TO_BAR_PERIOD`).  `to_bar` only applies it to rows whose
`(symbol, rtype)` pair is in the subscription set, and those rtypes are all
mapped, so the default branch is unreachable there. -/
def rtypeToBarPeriod (rtype : Nat) : BarPeriod :=
  if rtype = 32 then .second
  else if rtype = 33 then .minute
  else if rtype = 34 then .hour
  else .day

/-- `SimulatedDatafeed._stream`'s `to_bar`: drop rows whose `(symbol, rtype)`
is not subscribed, otherwise build the `BarReceived` with descaled prices. -/
def toBar (subs : List (String × Nat)) (r : CatalogRow) : Option BarReceived :=
  if (r.symbol, r.rtype) ∈ subs then
    some { tsEventNs := r.tsEvent
           symbol := r.symbol
           barPeriod := rtypeToBarPeriod r.rtype
           open_ := (r.open_ : ℚ) / priceScale
           high := (r.high : ℚ) / priceScale
           low := (r.low : ℚ) / priceScale
           close := (r.close : ℚ) / priceScale
           volume := some r.volume }
  else none

/-- `itertools.groupby(rows, key=lambda r: r[2])`: group adjacent rows with
identical `ts_event`. -/
def groupByTs : List CatalogRow → List (List CatalogRow)
  | [] => []
  | [r] => [[r]]
  | r :: r' :: rest =>
    match groupByTs (r' :: rest) with
    | [] => [[r]]
    | g :: gs =>
      if r.tsEvent = r'.tsEvent then (r :: g) :: gs else [r] :: g :: gs

/-- Timestamp shared by a group of rows (its first row's `ts_event`). -/
def groupTs : List CatalogRow → Int
  | [] => 0
  | r :: _ => r.tsEvent

/-- Observable actions of the datafeed's streaming loop: publishing a
`BarReceived` to the bus, or calling `bus.wait_until_system_idle()`. -/
inductive FeedAction
  | publishBar (b : BarReceived)
  | waitIdle
  deriving DecidableEq, Repr

/-- Actions of one timestamp batch: publish each subscribed bar of the
group, then wait for system-wide quiescence. -/
def batchActions (b : List BarReceived × Int) : List FeedAction :=
  b.1.map FeedAction.publishBar ++ [FeedAction.waitIdle]

/-- The timestamp batches the streaming loop processes: adjacent equal-`ts`
groups of the (already `ORDER BY ts_event`-sorted) result set, each filtered
through `to_bar` and tagged with its timestamp.  `stopAfter` embeds the
`stop_event` check at the head of each iteration (the loop processes a
prefix of the groups and returns once the event is observed set). -/
def streamBatches (subs : List (String × Nat)) (stopAfter : Nat)
    (rows : List CatalogRow) : List (List BarReceived × Int) :=
  ((groupByTs rows).take stopAfter).map
    (fun g => (g.filterMap (toBar subs), groupTs g))

/-- Action trace of `SimulatedDatafeed._stream`: for each timestamp group in
order, publish its subscribed bars and then call
`wait_until_system_idle()`. -/
def stream (subs : List (String × Nat)) (stopAfter : Nat)
    (rows : List CatalogRow) : List FeedAction :=
  ((streamBatches subs stopAfter rows).map batchActions).flatten

/-- Bars published along a trace, in order. -/
def publishedBars (trace : List FeedAction) : List BarReceived :=
  trace.filterMap (fun a =>
    match a with
    | .publishBar b => some b
    | .waitIdle => none)

/-- The first group produced for a nonempty row list starts with the list's
first row. -/
theorem groupByTs_cons_head (r : CatalogRow) (rest : List CatalogRow)
    (g : List CatalogRow) (gs : List (List CatalogRow))
    (h : groupByTs (r :: rest) = g :: gs) : ∃ g', g = r :: g' := by
  cases rest with
  | nil =>
    simp only [groupByTs] at h
    injection h with h1 h2
    exact ⟨[], h1.symm⟩
  | cons r' rest' =>
    simp only [groupByTs] at h
    cases hg : groupByTs (r' :: rest') with
    | nil =>
      rw [hg] at h
      injection h with h1 h2
      exact ⟨[], h1.symm⟩
    | cons g0 gs0 =>
      rw [hg] at h
      dsimp only at h
      by_cases he : r.tsEvent = r'.tsEvent
      · rw [if_pos he] at h
        injection h with h1 h2
        exact ⟨g0, h1.symm⟩
      · rw [if_neg he] at h
        injection h with h1 h2
        exact ⟨[], h1.symm⟩

/-- Every row of a group shares the group's timestamp. -/
theorem groupByTs_mem_ts (rows : List CatalogRow) :
    ∀ g ∈ groupByTs rows, ∀ x ∈ g, x.tsEvent = groupTs g := by
  induction rows with
  | nil =>
    intro g hg
    simp [groupByTs] at hg
  | cons r rest ih =>
    cases rest with
    | nil =>
      intro g hg x hx
      simp only [groupByTs, List.mem_singleton] at hg
      subst hg
      simp only [List.mem_singleton] at hx
      subst hx
      rfl
    | cons r' rest' =>
      intro g hg x hx
      simp only [groupByTs] at hg
      cases hgr : groupByTs (r' :: rest') with
      | nil =>
        rw [hgr] at hg
        simp only [List.mem_singleton] at hg
        subst hg
        simp only [List.mem_singleton] at hx
        subst hx
        rfl
      | cons g0 gs0 =>
        rw [hgr] at hg
        dsimp only at hg
        obtain ⟨g0', hg0'⟩ := groupByTs_cons_head r' rest' g0 gs0 hgr
        by_cases he : r.tsEvent = r'.tsEvent
        · rw [if_pos he] at hg
          rcases List.mem_cons.mp hg with rfl | hmem
          · rcases List.mem_cons.mp hx with rfl | hx0
            · rfl
            · have hx' := ih g0 (by rw [hgr]; exact List.mem_cons_self _ _) x hx0
              rw [hg0'] at hx'
              simp only [groupTs] at hx' ⊢
              rw [hx', he]
          · exact ih g (by rw [hgr]; exact List.mem_cons_of_mem _ hmem) x hx
        · rw [if_neg he] at hg
          rcases List.mem_cons.mp hg with rfl | hmem
          · simp only [List.mem_singleton] at hx
            subst hx
            rfl
          · exact ih g (by rw [hgr]; exact hmem) x hx

/-- On a `ts_event`-sorted row list the group timestamps strictly
increase. -/
theorem groupByTs_ts_chain : ∀ rows : List CatalogRow,
    List.Chain' (fun a b => a.tsEvent ≤ b.tsEvent) rows →
    List.Chain' (· < ·) ((groupByTs rows).map groupTs)
  | [] => by
    intro hs
    simp [groupByTs]
  | [r] => by
    intro hs
    simp [groupByTs]
  | r :: r' :: rest => by
    intro hs
    have hle : r.tsEvent ≤ r'.tsEvent := (List.chain'_cons.mp hs).1
    have ih := groupByTs_ts_chain (r' :: rest) (List.chain'_cons.mp hs).2
    simp only [groupByTs]
    cases hgr : groupByTs (r' :: rest) with
    | nil => simp
    | cons g0 gs0 =>
      obtain ⟨g0', rfl⟩ := groupByTs_cons_head r' rest g0 gs0 hgr
      rw [hgr] at ih
      dsimp only
      by_cases he : r.tsEvent = r'.tsEvent
      · rw [if_pos he]
        simp only [List.map_cons] at ih ⊢
        have hgt : groupTs (r :: r' :: g0') = groupTs (r' :: g0') := by
          simp [groupTs, he]
        rw [hgt]
        exact ih
      · rw [if_neg he]
        simp only [List.map_cons] at ih ⊢
        rw [List.chain'_cons]
        refine ⟨?_, ih⟩
        simp only [groupTs]
        omega

/-- A subscribed bar keeps its row's timestamp. -/
theorem toBar_ts (subs : List (String × Nat)) (r : CatalogRow)
    (b : BarReceived) (h : toBar subs r = some b) : b.tsEventNs = r.tsEvent := by
  unfold toBar at h
  split_ifs at h
  · injection h with h1
    subst h1
    rfl

/-- The bars published along a batched trace are the batches' bars in
order. -/
theorem publishedBars_flatten (batches : List (List BarReceived × Int)) :
    publishedBars ((batches.map batchActions).flatten)
      = (batches.map Prod.fst).flatten := by
  induction batches with
  | nil => rfl
  | cons b bs ih =>
    simp only [List.map_cons, List.flatten_cons]
    unfold publishedBars at ih ⊢
    rw [List.filterMap_append, ih]
    congr 1
    unfold batchActions
    rw [List.filterMap_append, List.filterMap_map]
    have h1 : List.filterMap (fun a =>
        match a with
        | FeedAction.publishBar b => some b
        | FeedAction.waitIdle => none) [FeedAction.waitIdle] = [] := rfl
    rw [h1, List.append_nil]
    exact List.filterMap_some _

/-- C3: on the `ORDER BY ts_event`-sorted query result, the streaming loop's
trace is a flat sequence of timestamp batches — each batch publishes only
bars of its own timestamp and ends with a `wait_until_system_idle()` call
before the next batch begins — batch timestamps strictly increase (so bars
sharing a timestamp are published consecutively in a single batch), and the
published `BarReceived` events appear in non-decreasing `ts_event_ns`
order. -/
theorem datafeed_stream_batched (subs : List (String × Nat)) (stopAfter : Nat)
    (rows : List CatalogRow)
    (hsorted : List.Chain' (fun a b => a.tsEvent ≤ b.tsEvent) rows) :
    ∃ batches : List (List BarReceived × Int),
      stream subs stopAfter rows = (batches.map batchActions).flatten
      ∧ (∀ b ∈ batches, ∀ bar ∈ b.1, bar.tsEventNs = b.2)
      ∧ List.Chain' (· < ·) (batches.map Prod.snd)
      ∧ List.Chain' (fun a b => a.tsEventNs ≤ b.tsEventNs)
          (publishedBars (stream subs stopAfter rows)) := by
  have hbatch : ∀ b ∈ streamBatches subs stopAfter rows,
      ∀ bar ∈ b.1, bar.tsEventNs = b.2 := by
    intro b hb bar hbar
    simp only [streamBatches, List.mem_map] at hb
    obtain ⟨g, hg, rfl⟩ := hb
    have hg' : g ∈ groupByTs rows := List.mem_of_mem_take hg
    dsimp only at hbar ⊢
    rw [List.mem_filterMap] at hbar
    obtain ⟨x, hx, htb⟩ := hbar
    rw [toBar_ts subs x bar htb]
    exact groupByTs_mem_ts rows g hg' x hx
  have hchain : List.Chain' (· < ·)
      ((streamBatches subs stopAfter rows).map Prod.snd) := by
    simp only [streamBatches, List.map_map]
    have hcomp : (Prod.snd ∘ fun g : List CatalogRow =>
        (g.filterMap (toBar subs), groupTs g)) = groupTs := rfl
    rw [hcomp, List.map_take]
    exact (groupByTs_ts_chain rows hsorted).take _
  refine ⟨streamBatches subs stopAfter rows, rfl, hbatch, hchain, ?_⟩
  rw [show stream subs stopAfter rows
      = ((streamBatches subs stopAfter rows).map batchActions).flatten from rfl,
    publishedBars_flatten]
  apply List.Pairwise.chain'
  rw [List.pairwise_flatten]
  constructor
  · intro l hl
    rw [List.mem_map] at hl
    obtain ⟨b, hb, rfl⟩ := hl
    apply List.pairwise_of_forall_mem_list
    intro x hx y hy
    rw [hbatch b hb x hx, hbatch b hb y hy]
  · rw [List.pairwise_map]
    have hpw : (streamBatches subs stopAfter rows).Pairwise
        (fun b1 b2 => b1.2 < b2.2) :=
      List.pairwise_map.mp (List.chain'_iff_pairwise.mp hchain)
    refine hpw.imp_of_mem ?_
    intro b1 b2 h1 h2 hlt x hx y hy
    rw [hbatch b1 h1 x hx, hbatch b2 h2 y hy]
    exact le_of_lt hlt

/-- Sorted catalog rows with two timestamp groups used to witness C3. -/
def c3Rows : List CatalogRow :=
  [ { symbol := "A"
      rtype := 33
      tsEvent := 1000
      open_ := 10000000000
      high := 12000000000
      low := 9000000000
      close := 11000000000
      volume := 5 },
    { symbol := "B"
      rtype := 33
      tsEvent := 1000
      open_ := 20000000000
      high := 22000000000
      low := 19000000000
      close := 21000000000
      volume := 7 },
    { symbol := "A"
      rtype := 33
      tsEvent := 2000
      open_ := 10500000000
      high := 12500000000
      low := 9500000000
      close := 11500000000
      volume := 6 } ]

/-- Subscription set for the C3 witness: minute bars of `"A"` and `"B"`. -/
def c3Subs : List (String × Nat) := [("A", 33), ("B", 33)]

/-- Witness for C3: three sorted rows in two timestamp groups stream as two
batches with the claimed properties. -/
theorem datafeed_stream_batched_witness :
    List.Chain' (fun a b => a.tsEvent ≤ b.tsEvent) c3Rows
    ∧ ∃ batches : List (List BarReceived × Int),
      stream c3Subs 10 c3Rows = (batches.map batchActions).flatten
      ∧ (∀ b ∈ batches, ∀ bar ∈ b.1, bar.tsEventNs = b.2)
      ∧ List.Chain' (· < ·) (batches.map Prod.snd)
      ∧ List.Chain' (fun a b => a.tsEventNs ≤ b.tsEventNs)
          (publishedBars (stream c3Subs 10 c3Rows)) := by
  have hs : List.Chain' (fun a b => a.tsEvent ≤ b.tsEvent) c3Rows := by
    norm_num [c3Rows, List.chain'_cons, List.chain'_singleton]
  exact ⟨hs, datafeed_stream_batched c3Subs 10 c3Rows hs⟩

end OST
